import Mathlib

/-!
# Verification of the geographic-context generator

This file gives a shallow embedding, in Lean 4, of the two source files of
`spinal-env-viewer-plugin-generate_geographic_context`:

* `src/js/generateGeographicContext.js` (called *Variant B* below): the entry
  point `GenerateGeoContext`, its recursive generator `GenerateGeoContextRec`,
  the per-name lookup helper `getChild`, and the write batcher built around
  `MAX_NON_SYNCHRONIZED_NODES = 300`;
* the second file (called *Variant A* below): the entry point
  `generateGeoContext` with progress reporting, its recursive generator
  `generateGeoContextRec`, the batched lookup helper `getChildrenByNames`, and
  the same batcher with the additional `promises = []` reset.

The persisted graph (SpinalGraph) is modelled as a list of nodes
(identifier, name, type) plus a list of directed labelled edges; node creation
draws fresh identifiers from a counter.  The lazy generator is modelled as a
state-passing function producing the finite list of yielded pending writes in
emission order, together with the trace of `(parent, relation)` pairs at which
a Group level was materialized (one entry per Group visit).  Out-of-bounds
indexing into the layout arrays is modelled by `Option`.
-/

/-- An item of the external (Forge) object tree: `child.dbId` / `child.name`
as read by the leaf branch of the recursive generator. -/
structure ExternalItem where
  dbId : Nat
  name : String
deriving DecidableEq, Repr

/-- The temporary tree produced by `createTmpTree`: internal nodes are ordered
name-to-subtree maps (a JavaScript `Map`), leaves are ordered item lists.
A `Map` is embedded as an association list; the `Map` invariant (pairwise
distinct keys) is the separate predicate `TmpTree.keysOk`. -/
inductive TmpTree where
  | leaf : List ExternalItem → TmpTree
  | group : List (String × TmpTree) → TmpTree
deriving Repr

/-- The layout object: per-depth node types and relation names (plus the
`keys` list, which only the external `hasProperties` collaborator reads). -/
structure Layout where
  types : List String
  relations : List String
  keys : List String
deriving DecidableEq, Repr

/-- A persisted graph node: identity, name, type. -/
structure GNode where
  nid : Nat
  name : String
  ntype : String
deriving DecidableEq, Repr

/-- A typed child edge of the persisted graph, labelled with a relation name. -/
structure GEdge where
  src : Nat
  rel : String
  dst : Nat
deriving DecidableEq, Repr

/-- The persisted graph state: a fresh-identifier counter, the nodes created
so far and the relation edges.  Both lists grow by appending. -/
structure Graph where
  nextId : Nat
  nodes : List GNode
  edges : List GEdge
deriving DecidableEq, Repr

/-- A pending write yielded by the recursive generator: either an
`addChildInContext` call attaching a freshly created node, or an
`addBIMObject` call attaching an external item. -/
inductive Write where
  | addChild (parent child : Nat) (name ty rel : String) (ctx : Nat)
  | addBIM (ctx parent dbId : Nat) (name : String)
deriving DecidableEq, Repr

/-- Identifiers of the nodes present in the graph. -/
def nodeIds (g : Graph) : List Nat :=
  g.nodes.map (·.nid)

/-- Identifiers of the children of `p` reachable through relation `rel`,
in edge-insertion order (what `getChildren` returns). -/
def childIds (g : Graph) (p : Nat) (rel : String) : List Nat :=
  g.edges.filterMap fun e => if e.src == p && e.rel == rel then some e.dst else none

/-- The name of node `x`, when `x` exists in the graph. -/
def nameOf (g : Graph) (x : Nat) : Option String :=
  (g.nodes.find? fun n => n.nid == x).map (·.name)

/-- The resolver result for `(p, rel)`: the existing children together with
their names, in edge-insertion order.  One evaluation of this function models
one `getChildren` round-trip. -/
def childSnapshot (g : Graph) (p : Nat) (rel : String) : List (Nat × String) :=
  (childIds g p rel).filterMap fun cid => (nameOf g cid).map fun nm => (cid, nm)

/-- Variant A's per-name matching over one resolver result:
`children.find(child => child.name.get() === name)`. -/
def findInSnap (snap : List (Nat × String)) (nm : String) : Option Nat :=
  (snap.find? fun ch => ch.2 == nm).map (·.1)

/-- Variant B's `getChild` loop body: scan the children returned by
`parent.getChildren(relationName)` and return the first one whose name equals
`nodeName` (lines 39–45 of `generateGeographicContext.js`). -/
def getChildLoop : List (Nat × String) → String → Option Nat
  | [], _ => none
  | ch :: rest, nm => if ch.2 == nm then some ch.1 else getChildLoop rest nm

/-- Variant B's `getChild`: one `getChildren` call followed by the first-match
scan. -/
def getChild (g : Graph) (p : Nat) (nodeName rel : String) : Option Nat :=
  getChildLoop (childSnapshot g p rel) nodeName

/-- Variant A's `getChildrenByNames`: one `getChildren` call for the parent,
then one `find` per requested name over that single result
(lines 46–57 of the second source file). -/
def getChildrenByNames (g : Graph) (p : Nat) (names : List String) (rel : String) :
    List (Option Nat) :=
  let children := childSnapshot g p rel
  names.map fun nm => findInSnap children nm

/-- Variant B's lookup phase for one Group: one `getChild` promise is pushed
per entry name (lines 50–56 of `generateGeographicContext.js`), and each
`getChild` performs one `getChildren` round-trip (line 37).  The second
component counts those round-trips. -/
def variantBLookups (g : Graph) (p : Nat) : List String → String → List (Option Nat) × Nat
  | [], _ => ([], 0)
  | nm :: rest, rel =>
    let r := getChild g p nm rel
    let pr := variantBLookups g p rest rel
    (r :: pr.1, pr.2 + 1)

/-- `new SpinalNode(name, type)` followed by attaching it to `p` under `rel`:
the fresh node and the new edge are appended, and the identifier counter
advances. -/
def createAttach (g : Graph) (p : Nat) (nm ty rel : String) : Graph :=
  { nextId := g.nextId + 1
    nodes := g.nodes ++ [⟨g.nextId, nm, ty⟩]
    edges := g.edges ++ [⟨p, rel, g.nextId⟩] }

mutual

/-- The recursive generator (`GenerateGeoContextRec` / `generateGeoContextRec`).
For a Group it takes one snapshot of the parent's existing children under
`layout.relations[depth]` (the lookups of both variants run against the graph
state at level entry), then walks the entries in insertion order through
`genEntries`.  For a Leaf it yields one `addBIMObject` write per item.  The
result is the final graph, the yielded writes in emission order, and the trace
of `(parent, relation)` pairs of the Group levels visited (one per Group
visit); `none` models an out-of-bounds layout access. -/
def generateGeoContextRec (c p : Nat) (t : TmpTree) (L : Layout) (d : Nat) (g : Graph) :
    Option (Graph × List Write × List (Nat × String)) :=
  match t with
  | .leaf items => some (g, items.map (fun it => Write.addBIM c p it.dbId it.name), [])
  | .group es =>
    match L.relations.get? d with
    | none => none
    | some rel =>
      match genEntries c p es (childSnapshot g p rel) rel L d g with
      | none => none
      | some (g', ws, tr) => some (g', ws, (p, rel) :: tr)

/-- One Group level of the recursive generator: walk the entries in insertion
order against the fixed snapshot `snap` of the parent's pre-level children;
a child found by name is reused as the recursion parent with no write emitted,
a missing name triggers creation and attachment of a fresh node whose
`addChildInContext` write is emitted before the writes of its subtree. -/
def genEntries (c p : Nat) (es : List (String × TmpTree)) (snap : List (Nat × String))
    (rel : String) (L : Layout) (d : Nat) (g : Graph) :
    Option (Graph × List Write × List (Nat × String)) :=
  match es with
  | [] => some (g, [], [])
  | (nm, sub) :: rest =>
    match findInSnap snap nm with
    | some cid =>
      match generateGeoContextRec c cid sub L (d + 1) g with
      | none => none
      | some (g1, ws1, tr1) =>
        match genEntries c p rest snap rel L d g1 with
        | none => none
        | some (g2, ws2, tr2) => some (g2, ws1 ++ ws2, tr1 ++ tr2)
    | none =>
      match L.types.get? d with
      | none => none
      | some ty =>
        let cid := g.nextId
        let g' := createAttach g p nm ty rel
        match generateGeoContextRec c cid sub L (d + 1) g' with
        | none => none
        | some (g1, ws1, tr1) =>
          match genEntries c p rest snap rel L d g1 with
          | none => none
          | some (g2, ws2, tr2) =>
            some (g2, Write.addChild p cid nm ty rel c :: (ws1 ++ ws2), tr1 ++ tr2)

end

/-- The batch threshold shared by both variants. -/
def MAX_NON_SYNCHRONIZED_NODES : Nat := 300

/-- Variant A's batcher state: `(promises.length, maxUnconfirmedSeen)`.
Each yielded write is pushed; when the batch length reaches the threshold the
batcher waits for the whole batch to be confirmed and then resets
`promises = []` (lines 144–149 of the second source file).  The second
component records the largest number of concurrently unconfirmed pending
writes observed so far. -/
def batchStepA (st : Nat × Nat) (_w : Write) : Nat × Nat :=
  let len := st.1 + 1
  let mx := max st.2 len
  if len == MAX_NON_SYNCHRONIZED_NODES then (0, mx) else (len, mx)

/-- The largest number of concurrently unconfirmed pending writes Variant A's
batcher holds while draining `ws` (the final partial batch is flushed after
the loop and does not grow further). -/
def maxUnconfA (ws : List Write) : Nat :=
  (ws.foldl batchStepA (0, 0)).2

/-- Variant B's batcher state: `(promises.length, unconfirmed, maxSeen)`.
Each yielded write is pushed; when the *total* length reaches the threshold
the batcher waits for confirmation of everything accumulated so far — but the
`promises` array is never reset (lines 120–127 of
`generateGeographicContext.js`), so the length check can fire at most once
and later writes keep accumulating unconfirmed. -/
def batchStepB (st : Nat × Nat × Nat) (_w : Write) : Nat × Nat × Nat :=
  let len := st.1 + 1
  let unconf := st.2.1 + 1
  let mx := max st.2.2 unconf
  if len == MAX_NON_SYNCHRONIZED_NODES then (len, 0, mx) else (len, unconf, mx)

/-- The largest number of concurrently unconfirmed pending writes Variant B's
batcher holds while draining `ws`. -/
def maxUnconfB (ws : List Write) : Nat :=
  (ws.foldl batchStepB (0, 0, 0)).2.2

/-- Variant A's progress constants. -/
def PROGRESS_BAR_SIZE_GET_PROPS : ℚ := 10
def PROGRESS_BAR_SIZE_CREATE_TREE : ℚ := 10
def PROGRESS_BAR_SIZE_CREATE_GRAPH : ℚ := 80

/-- The successive values taken by `progression.value` in Variant A, for
`n = props.length` qualifying items and `w` yielded writes: fixed 10 on input
acceptance, advanced by 10 after building the temporary tree, advanced by
`incrProg = 80 * 300 / n` at each of the `w / 300` flush cycles, and finally
set to 100 (lines 133–155 of the second source file).  JavaScript number
division is modelled by exact rational division. -/
def progressTrace (n w : Nat) : List ℚ :=
  let incrProg : ℚ := PROGRESS_BAR_SIZE_CREATE_GRAPH * (MAX_NON_SYNCHRONIZED_NODES : ℚ) / (n : ℚ)
  PROGRESS_BAR_SIZE_GET_PROPS ::
    (PROGRESS_BAR_SIZE_GET_PROPS + PROGRESS_BAR_SIZE_CREATE_TREE) ::
    ((List.range (w / MAX_NON_SYNCHRONIZED_NODES)).map fun (k : Nat) =>
      PROGRESS_BAR_SIZE_GET_PROPS + PROGRESS_BAR_SIZE_CREATE_TREE + ((k : ℚ) + 1) * incrProg)
    ++ [100]

/-- The observable outcome of one orchestrator run: whether a temporary tree
was built, the trace of Group levels the materializer visited (empty iff no
resolver call was issued), the pending writes emitted, the final graph, and
the value the `async` function resolves to (`none` = `undefined`). -/
structure RunLog where
  datasetBuilt : Bool
  visits : List (Nat × String)
  writes : List Write
  finalGraph : Graph
  retVal : Option Nat
deriving DecidableEq, Repr

/-- Variant A (`generateGeoContext`, second source file): receives the
already-filtered `props` and a progress cell, always builds the temporary
tree (`build` models the external `createTmpTree` collaborator), drives the
recursive generator to exhaustion through the batcher, and finally sets the
progress to 100.  It returns no value. -/
def generateGeoContext (build : List ExternalItem → TmpTree) (c : Nat) (L : Layout)
    (props : List ExternalItem) (g : Graph) : Option (RunLog × List ℚ) :=
  let tmpTree := build props
  match generateGeoContextRec c c tmpTree L 0 g with
  | none => none
  | some (g', ws, tr) =>
    some (⟨true, tr, ws, g', none⟩, progressTrace props.length ws.length)

/-- Variant B (`GenerateGeoContext`, `generateGeographicContext.js`): receives
the filter collaborator's qualifying items; if there are none it returns
immediately — no temporary tree is built, no Group level is visited, no write
is emitted and the graph is untouched.  Otherwise it builds the temporary
tree and drives the recursive generator to exhaustion.  Both paths resolve to
`undefined`. -/
def GenerateGeoContext (build : List ExternalItem → TmpTree) (c : Nat) (L : Layout)
    (props : List ExternalItem) (g : Graph) : Option RunLog :=
  if props.length == 0 then
    some ⟨false, [], [], g, none⟩
  else
    let tmpTree := build props
    match generateGeoContextRec c c tmpTree L 0 g with
    | none => none
    | some (g', ws, tr) => some ⟨true, tr, ws, g', none⟩

/-- `true` on the writes produced by node creation (`addChildInContext`). -/
def Write.isCreate : Write → Bool
  | .addChild .. => true
  | .addBIM .. => false

/-- Number of node-creation writes in a write list. -/
def countAdds (ws : List Write) : Nat :=
  (ws.filter Write.isCreate).length

/-- The parent node a pending write attaches to. -/
def Write.parentOf : Write → Nat
  | .addChild q _ _ _ _ _ => q
  | .addBIM _ q _ _ => q

/-- The node a pending write creates, if any. -/
def Write.createdChild : Write → Option Nat
  | .addChild _ ch _ _ _ _ => some ch
  | .addBIM .. => none

/-- Depth-first pre-order seen-set discipline: processing the writes in
emission order, every write attaches to a node that is either in the initial
seen set or was created by an earlier write of the list. -/
def parentsSeen (seen : List Nat) : List Write → Prop
  | [] => True
  | w :: ws =>
    w.parentOf ∈ seen ∧
      parentsSeen
        (match w.createdChild with
          | some cid => seen ++ [cid]
          | none => seen) ws

/-- Pairwise-distinct key list (the keys of a JavaScript `Map` are distinct). -/
def distinctKeys : List String → Bool
  | [] => true
  | k :: rest => !(rest.contains k) && distinctKeys rest

mutual

/-- The `Map` well-formedness of a temporary tree: every Group's keys are
pairwise distinct, recursively.  Holds by construction of `createTmpTree`,
whose Groups are JavaScript `Map`s. -/
def TmpTree.keysOk : TmpTree → Bool
  | .leaf _ => true
  | .group es => distinctKeys (es.map Prod.fst) && keysOkList es

/-- List form of `TmpTree.keysOk`. -/
def keysOkList : List (String × TmpTree) → Bool
  | [] => true
  | (_, sub) :: rest => sub.keysOk && keysOkList rest

end

mutual

/-- Every Group of the tree sits at depth `< n` (`n` bounds both layout
arrays); leaves are unconstrained. -/
def TmpTree.depthOk : TmpTree → Nat → Nat → Bool
  | .leaf _, _, _ => true
  | .group es, d, n => d.blt n && depthOkList es (d + 1) n

/-- List form of `TmpTree.depthOk`. -/
def depthOkList : List (String × TmpTree) → Nat → Nat → Bool
  | [], _, _ => true
  | (_, sub) :: rest, d, n => sub.depthOk d n && depthOkList rest d n

end

/-- Well-formed graph state: every node identifier and every edge endpoint is
below the fresh-identifier counter (so freshly created nodes are really new).
Holds for every graph reachable by the host library, which allocates
`_server_id`s from a counter. -/
def Graph.wf (g : Graph) : Prop :=
  (∀ n ∈ g.nodes, n.nid < g.nextId) ∧ ∀ e ∈ g.edges, e.src < g.nextId ∧ e.dst < g.nextId

instance (g : Graph) : Decidable (Graph.wf g) := by
  unfold Graph.wf
  infer_instance

/-- `g'` extends `g`: nodes and edges are appended, appended nodes carry fresh
identifiers, and every appended edge was attached under a `(parent, relation)`
pair of the trace `tr`. -/
def Gext (g g' : Graph) (tr : List (Nat × String)) : Prop :=
  g.nextId ≤ g'.nextId ∧
    (∃ ns, g'.nodes = g.nodes ++ ns ∧ ∀ n ∈ ns, g.nextId ≤ n.nid ∧ n.nid < g'.nextId) ∧
    ∃ ds, g'.edges = g.edges ++ ds ∧
      ∀ e ∈ ds, (e.src, e.rel) ∈ tr ∧ g.nextId ≤ e.dst ∧ e.dst < g'.nextId

/-- Every resolver snapshot of `g'` extends the corresponding snapshot of `g`
on the right (so first matches by name are preserved). -/
def SnapPrefix (g g' : Graph) : Prop :=
  ∀ p rel, ∃ ext, childSnapshot g' p rel = childSnapshot g p rel ++ ext

mutual

/-- `t` is fully materialized below parent `p` at depth `d`: every Group entry
is found by the first-match name lookup and its subtree is fully materialized
below the found child. -/
def sat (p : Nat) (t : TmpTree) (L : Layout) (d : Nat) (g : Graph) : Prop :=
  match t with
  | .leaf _ => True
  | .group es => ∃ rel, L.relations.get? d = some rel ∧ satL p es rel L d g

/-- List form of `sat`. -/
def satL (p : Nat) (es : List (String × TmpTree)) (rel : String) (L : Layout) (d : Nat)
    (g : Graph) : Prop :=
  match es with
  | [] => True
  | (nm, sub) :: rest =>
    (∃ cid, findInSnap (childSnapshot g p rel) nm = some cid ∧ sat cid sub L (d + 1) g) ∧
      satL p rest rel L d g

end

/-- A write whose content is irrelevant to the batcher (the batch counters
ignore the write itself). -/
def dummyWrite : Write := Write.addBIM 0 0 0 ""

/-- `n` iterations of Variant B's batcher step (the step ignores the write). -/
def stepsB (st : Nat × Nat × Nat) : Nat → Nat × Nat × Nat
  | 0 => st
  | n + 1 => stepsB (batchStepB st dummyWrite) n

/-- C1 counterexample: pre-existing graph with a context node named `"A"`
that is its own child under relation `"R"`. -/
def cexG : Graph := ⟨1, [⟨0, "A", "T"⟩], [⟨0, "R", 0⟩]⟩

/-- C1 counterexample layout: the same relation name at both depths. -/
def cexLayout : Layout := ⟨["T0", "T1"], ["R", "R"], []⟩

/-- C1 counterexample dataset. -/
def cexTree : TmpTree :=
  .group [("A", .group [("B", .leaf [])]), ("B", .group [("C", .leaf [])])]

/-- Graph state after the first run of the C1 counterexample. -/
def cexG1 : Graph :=
  ⟨4, [⟨0, "A", "T"⟩, ⟨1, "B", "T1"⟩, ⟨2, "B", "T0"⟩, ⟨3, "C", "T1"⟩],
    [⟨0, "R", 0⟩, ⟨0, "R", 1⟩, ⟨0, "R", 2⟩, ⟨2, "R", 3⟩]⟩

/-- Writes of the first run of the C1 counterexample. -/
def cexWs1 : List Write :=
  [.addChild 0 1 "B" "T1" "R" 9, .addChild 0 2 "B" "T0" "R" 9, .addChild 2 3 "C" "T1" "R" 9]

/-- Group-visit trace of the first run of the C1 counterexample (the pair
`(0, "R")` is visited twice: the pre-existing cycle makes the run re-enter
the same parent under the same relation). -/
def cexTr1 : List (Nat × String) := [(0, "R"), (0, "R"), (2, "R")]

/-- Graph state after the second run of the C1 counterexample: node `4` is a
duplicate of the `"C"` node, created below the *other* node named `"B"`. -/
def cexG2 : Graph :=
  ⟨5, [⟨0, "A", "T"⟩, ⟨1, "B", "T1"⟩, ⟨2, "B", "T0"⟩, ⟨3, "C", "T1"⟩, ⟨4, "C", "T1"⟩],
    [⟨0, "R", 0⟩, ⟨0, "R", 1⟩, ⟨0, "R", 2⟩, ⟨2, "R", 3⟩, ⟨1, "R", 4⟩]⟩

/-- C2 failing input: 600 qualifying items below a single group key. -/
def c2props : List ExternalItem := (List.range 600).map fun i => ⟨i, "X"⟩

/-- C2 failing dataset: one Group entry whose leaf holds the 600 items, so
the run emits `1 + 600 = 601` pending writes. -/
def c2tree : TmpTree := .group [("A", .leaf c2props)]

/-- Single-depth layout used by the concrete C2/C6/C8 runs. -/
def wL : Layout := ⟨["T"], ["R"], []⟩

/-- Initial graph used by the concrete runs: one context node, no children. -/
def wG : Graph := ⟨1, [⟨0, "ctx", "C"⟩], []⟩

/-- The write sequence Variant B's batcher drains on the C2 failing input. -/
def c2writes : List Write :=
  ((generateGeoContextRec 0 0 c2tree wL 0 wG).map fun r => r.2.1).getD []

/-- C6 counterexample: 299 qualifying items below a single group key, so the
run emits exactly 300 writes — one flush cycle — while `props.length = 299`. -/
def c6props : List ExternalItem := (List.range 299).map fun i => ⟨i, "X"⟩

/-- The grouping collaborator for the concrete C6/C8 runs: all items share
one key `"A"` (consistent with `createTmpTree` on 299 same-key items). -/
def c6build : List ExternalItem → TmpTree := fun ps => .group [("A", .leaf ps)]

/-- Graph state after the witness run: the context node has one child
`1 = "A"` of type `"T"` under `"R"`. -/
def wG1 : Graph := ⟨2, [⟨0, "ctx", "C"⟩, ⟨1, "A", "T"⟩], [⟨0, "R", 1⟩]⟩

/-- Small dataset used by several witnesses. -/
def wT : TmpTree := .group [("A", .leaf [])]

theorem getChildLoop_eq (snap : List (Nat × String)) (nm : String) :
    getChildLoop snap nm = findInSnap snap nm := by
  induction snap with
  | nil => rfl
  | cons ch rest ih =>
    by_cases h : (ch.2 == nm) = true
    · simp [getChildLoop, findInSnap, h, List.find?_cons_of_pos]
    · rw [Bool.not_eq_true] at h
      simp only [getChildLoop, h, if_false, ih, findInSnap]
      rw [List.find?_cons_of_neg _ (by simp [h])]
      simp

theorem findInSnap_append_some {s1 : List (Nat × String)} {nm : String} {cid : Nat}
    (h : findInSnap s1 nm = some cid) (s2 : List (Nat × String)) :
    findInSnap (s1 ++ s2) nm = some cid := by
  unfold findInSnap at h ⊢
  cases hf : s1.find? (fun ch => ch.2 == nm) with
  | none => rw [hf] at h; simp at h
  | some pr =>
    rw [hf] at h
    rw [List.find?_append, hf]
    simpa using h

theorem findInSnap_append_none {s1 : List (Nat × String)} {nm : String}
    (h : findInSnap s1 nm = none) (s2 : List (Nat × String)) :
    findInSnap (s1 ++ s2) nm = findInSnap s2 nm := by
  unfold findInSnap at h ⊢
  cases hf : s1.find? (fun ch => ch.2 == nm) with
  | none => rw [List.find?_append, hf]; rfl
  | some pr => rw [hf] at h; simp at h

theorem findInSnap_eq_none {s : List (Nat × String)} {nm : String}
    (h : ∀ x ∈ s, x.2 ≠ nm) : findInSnap s nm = none := by
  unfold findInSnap
  rw [List.find?_eq_none.mpr]
  · rfl
  · intro x hx
    simpa using h x hx

theorem findInSnap_mem {s : List (Nat × String)} {nm : String} {cid : Nat}
    (h : findInSnap s nm = some cid) : (cid, nm) ∈ s := by
  unfold findInSnap at h
  cases hf : s.find? (fun ch => ch.2 == nm) with
  | none => rw [hf] at h; simp at h
  | some pr =>
    rw [hf] at h
    have h1 := List.find?_some hf
    have h2 := List.mem_of_find?_eq_some hf
    simp at h h1
    obtain ⟨pr1, pr2⟩ := pr
    simp at h1
    simp at h
    rw [← h, ← h1]
    exact h2

theorem mem_childSnapshot {g : Graph} {p : Nat} {rel : String} {x : Nat × String}
    (h : x ∈ childSnapshot g p rel) :
    x.1 ∈ childIds g p rel ∧ nameOf g x.1 = some x.2 := by
  unfold childSnapshot at h
  rw [List.mem_filterMap] at h
  obtain ⟨cid, hcid, hmap⟩ := h
  cases hn : nameOf g cid with
  | none => rw [hn] at hmap; simp at hmap
  | some nm =>
    rw [hn] at hmap
    simp at hmap
    rw [← hmap]
    exact ⟨hcid, hn⟩

theorem childIds_lt {g : Graph} {p : Nat} {rel : String} {cid : Nat}
    (hwf : Graph.wf g) (h : cid ∈ childIds g p rel) : cid < g.nextId := by
  unfold childIds at h
  rw [List.mem_filterMap] at h
  obtain ⟨e, he, hmap⟩ := h
  by_cases hc : (e.src == p && e.rel == rel) = true
  · rw [hc] at hmap
    simp at hmap
    rw [← hmap]
    exact (hwf.2 e he).2
  · rw [Bool.not_eq_true] at hc
    rw [hc] at hmap
    simp at hmap

theorem nameOf_mem_nodeIds {g : Graph} {x : Nat} {nm : String}
    (h : nameOf g x = some nm) : x ∈ nodeIds g := by
  unfold nameOf at h
  cases hf : g.nodes.find? (fun n => n.nid == x) with
  | none => rw [hf] at h; simp at h
  | some n =>
    have h1 := List.find?_some hf
    have h2 := List.mem_of_find?_eq_some hf
    simp at h1
    unfold nodeIds
    rw [List.mem_map]
    exact ⟨n, h2, h1⟩

theorem gext_rfl (g : Graph) (tr : List (Nat × String)) : Gext g g tr := by
  refine ⟨le_refl _, ⟨[], ?_, ?_⟩, ⟨[], ?_, ?_⟩⟩ <;> simp

theorem gext_trans {g1 g2 g3 : Graph} {tr : List (Nat × String)}
    (h12 : Gext g1 g2 tr) (h23 : Gext g2 g3 tr) : Gext g1 g3 tr := by
  obtain ⟨hn12, ⟨ns1, hns1, hb1⟩, ⟨ds1, hds1, hd1⟩⟩ := h12
  obtain ⟨hn23, ⟨ns2, hns2, hb2⟩, ⟨ds2, hds2, hd2⟩⟩ := h23
  refine ⟨le_trans hn12 hn23, ⟨ns1 ++ ns2, ?_, ?_⟩, ⟨ds1 ++ ds2, ?_, ?_⟩⟩
  · rw [hns2, hns1, List.append_assoc]
  · intro n hn
    rcases List.mem_append.mp hn with h | h
    · exact ⟨(hb1 n h).1, lt_of_lt_of_le (hb1 n h).2 hn23⟩
    · exact ⟨le_trans hn12 (hb2 n h).1, (hb2 n h).2⟩
  · rw [hds2, hds1, List.append_assoc]
  · intro e he
    rcases List.mem_append.mp he with h | h
    · exact ⟨(hd1 e h).1, (hd1 e h).2.1, lt_of_lt_of_le (hd1 e h).2.2 hn23⟩
    · exact ⟨(hd2 e h).1, le_trans hn12 (hd2 e h).2.1, (hd2 e h).2.2⟩

theorem gext_mono {g g' : Graph} {tr tr' : List (Nat × String)}
    (hsub : ∀ x ∈ tr, x ∈ tr') (h : Gext g g' tr) : Gext g g' tr' := by
  obtain ⟨hn, hns, ⟨ds, hds, hd⟩⟩ := h
  exact ⟨hn, hns, ⟨ds, hds, fun e he => ⟨hsub _ (hd e he).1, (hd e he).2⟩⟩⟩

theorem gext_nextId {g g' : Graph} {tr : List (Nat × String)} (h : Gext g g' tr) :
    g.nextId ≤ g'.nextId := h.1

theorem nameOf_gext {g g' : Graph} {tr : List (Nat × String)} {x : Nat}
    (hx : Gext g g' tr) (hlt : x < g.nextId) : nameOf g' x = nameOf g x := by
  obtain ⟨_, ⟨ns, hns, hb⟩, _⟩ := hx
  unfold nameOf
  rw [hns, List.find?_append]
  cases hf : g.nodes.find? (fun n => n.nid == x) with
  | some n => simp
  | none =>
    have : ns.find? (fun n => n.nid == x) = none := by
      rw [List.find?_eq_none]
      intro n hn
      have := (hb n hn).1
      simp
      omega
    simp [this]

theorem childIds_gext {g g' : Graph} {tr : List (Nat × String)} (hx : Gext g g' tr)
    (p : Nat) (rel : String) :
    ∃ ds : List GEdge, childIds g' p rel = childIds g p rel ++
        ds.filterMap (fun e => if e.src == p && e.rel == rel then some e.dst else none) ∧
      ∀ e ∈ ds, (e.src, e.rel) ∈ tr ∧ g.nextId ≤ e.dst ∧ e.dst < g'.nextId := by
  obtain ⟨_, _, ⟨ds, hds, hd⟩⟩ := hx
  refine ⟨ds, ?_, hd⟩
  unfold childIds
  rw [hds, List.filterMap_append]

theorem filterMap_congr_mem {α β : Type} {f h : α → Option β} {l : List α}
    (H : ∀ a ∈ l, f a = h a) : l.filterMap f = l.filterMap h := by
  induction l with
  | nil => rfl
  | cons a l ih =>
    rw [List.filterMap_cons, List.filterMap_cons, H a (by simp),
      ih fun a ha => H a (by simp [ha])]

theorem childSnapshot_gext {g g' : Graph} {tr : List (Nat × String)}
    (hwf : Graph.wf g) (hx : Gext g g' tr) (p : Nat) (rel : String) :
    ∃ ext, childSnapshot g' p rel = childSnapshot g p rel ++ ext ∧
      ((p, rel) ∉ tr → ext = []) := by
  obtain ⟨ds, hci, hd⟩ := childIds_gext hx p rel
  unfold childSnapshot
  rw [hci, List.filterMap_append]
  have hcongr : (childIds g p rel).filterMap (fun cid => (nameOf g' cid).map fun nm => (cid, nm)) =
      (childIds g p rel).filterMap (fun cid => (nameOf g cid).map fun nm => (cid, nm)) := by
    apply filterMap_congr_mem
    intro cid hcid
    rw [nameOf_gext hx (childIds_lt hwf hcid)]
  rw [hcongr]
  refine ⟨_, rfl, ?_⟩
  intro hnm
  have hids : ds.filterMap (fun e => if e.src == p && e.rel == rel then some e.dst else none) = [] := by
    rw [List.filterMap_eq_nil_iff]
    intro e he
    by_cases hc : (e.src == p && e.rel == rel) = true
    · exfalso
      simp at hc
      have := (hd e he).1
      rw [hc.1, hc.2] at this
      exact hnm this
    · rw [Bool.not_eq_true] at hc
      simp [hc]
  rw [hids]
  rfl

theorem snapPrefix_of_gext {g g' : Graph} {tr : List (Nat × String)}
    (hwf : Graph.wf g) (hx : Gext g g' tr) : SnapPrefix g g' := by
  intro p rel
  obtain ⟨ext, hext, _⟩ := childSnapshot_gext hwf hx p rel
  exact ⟨ext, hext⟩

theorem childSnapshot_gext_not_mem {g g' : Graph} {tr : List (Nat × String)}
    (hwf : Graph.wf g) (hx : Gext g g' tr) {p : Nat} {rel : String}
    (hnm : (p, rel) ∉ tr) : childSnapshot g' p rel = childSnapshot g p rel := by
  obtain ⟨ext, hext, hnil⟩ := childSnapshot_gext hwf hx p rel
  rw [hext, hnil hnm]
  simp

theorem createAttach_gext (g : Graph) (p : Nat) (nm ty rel : String) :
    Gext g (createAttach g p nm ty rel) [(p, rel)] := by
  refine ⟨by simp [createAttach], ⟨[⟨g.nextId, nm, ty⟩], rfl, ?_⟩,
    ⟨[⟨p, rel, g.nextId⟩], rfl, ?_⟩⟩
  · intro n hn
    simp at hn
    rw [hn]
    simp [createAttach]
  · intro e he
    simp at he
    rw [he]
    simp [createAttach]

theorem createAttach_wf {g : Graph} {p : Nat} (nm ty rel : String)
    (hwf : Graph.wf g) (hp : p < g.nextId) : Graph.wf (createAttach g p nm ty rel) := by
  constructor
  · intro n hn
    rcases List.mem_append.mp hn with h | h
    · exact lt_trans (hwf.1 n h) (by simp [createAttach])
    · simp at h
      rw [h]
      simp [createAttach]
  · intro e he
    rcases List.mem_append.mp he with h | h
    · exact ⟨lt_trans (hwf.2 e h).1 (by simp [createAttach]),
        lt_trans (hwf.2 e h).2 (by simp [createAttach])⟩
    · simp at h
      rw [h]
      simp [createAttach]
      omega

theorem genRec_leaf_eq (c p : Nat) (items : List ExternalItem) (L : Layout) (d : Nat)
    (g : Graph) :
    generateGeoContextRec c p (.leaf items) L d g =
      some (g, items.map fun it => Write.addBIM c p it.dbId it.name, []) := by
  rw [generateGeoContextRec]

theorem genRec_group_inv {c p : Nat} {es : List (String × TmpTree)} {L : Layout} {d : Nat}
    {g g' : Graph} {ws : List Write} {tr : List (Nat × String)}
    (h : generateGeoContextRec c p (.group es) L d g = some (g', ws, tr)) :
    ∃ rel trE, L.relations.get? d = some rel ∧
      genEntries c p es (childSnapshot g p rel) rel L d g = some (g', ws, trE) ∧
      tr = (p, rel) :: trE := by
  rw [generateGeoContextRec] at h
  cases hrel : L.relations.get? d with
  | none => simp only [hrel] at h; simp at h
  | some rel =>
    simp only [hrel] at h
    cases hge : genEntries c p es (childSnapshot g p rel) rel L d g with
    | none => simp only [hge] at h; simp at h
    | some q =>
      obtain ⟨g1, ws1, tr1⟩ := q
      simp only [hge] at h
      simp at h
      exact ⟨rel, tr1, rfl, by rw [hge, h.1, h.2.1], h.2.2.symm⟩

theorem genEntries_nil_eq (c p : Nat) (snap : List (Nat × String)) (rel : String)
    (L : Layout) (d : Nat) (g : Graph) :
    genEntries c p [] snap rel L d g = some (g, [], []) := by
  rw [genEntries]

theorem genEntries_cons_inv {c p : Nat} {nm : String} {sub : TmpTree}
    {rest : List (String × TmpTree)} {snap : List (Nat × String)} {rel : String}
    {L : Layout} {d : Nat} {g g2 : Graph} {ws : List Write} {tr : List (Nat × String)}
    (h : genEntries c p ((nm, sub) :: rest) snap rel L d g = some (g2, ws, tr)) :
    (∃ cid g1 ws1 tr1 ws2 tr2, findInSnap snap nm = some cid ∧
        generateGeoContextRec c cid sub L (d + 1) g = some (g1, ws1, tr1) ∧
        genEntries c p rest snap rel L d g1 = some (g2, ws2, tr2) ∧
        ws = ws1 ++ ws2 ∧ tr = tr1 ++ tr2) ∨
      (∃ ty g1 ws1 tr1 ws2 tr2, findInSnap snap nm = none ∧ L.types.get? d = some ty ∧
        generateGeoContextRec c g.nextId sub L (d + 1) (createAttach g p nm ty rel) =
          some (g1, ws1, tr1) ∧
        genEntries c p rest snap rel L d g1 = some (g2, ws2, tr2) ∧
        ws = Write.addChild p g.nextId nm ty rel c :: (ws1 ++ ws2) ∧ tr = tr1 ++ tr2) := by
  rw [genEntries] at h
  cases hf : findInSnap snap nm with
  | some cid =>
    left
    simp only [hf] at h
    cases hr : generateGeoContextRec c cid sub L (d + 1) g with
    | none => simp only [hr] at h; simp at h
    | some q1 =>
      obtain ⟨g1, ws1, tr1⟩ := q1
      simp only [hr] at h
      cases he : genEntries c p rest snap rel L d g1 with
      | none => simp only [he] at h; simp at h
      | some q2 =>
        obtain ⟨ga, wsa, tra⟩ := q2
        simp only [he] at h
        simp at h
        exact ⟨cid, g1, ws1, tr1, wsa, tra, rfl, hr, by rw [he, h.1], h.2.1.symm, h.2.2.symm⟩
  | none =>
    right
    simp only [hf] at h
    cases hty : L.types.get? d with
    | none => simp only [hty] at h; simp at h
    | some ty =>
      simp only [hty] at h
      cases hr : generateGeoContextRec c g.nextId sub L (d + 1) (createAttach g p nm ty rel) with
      | none => simp only [hr] at h; simp at h
      | some q1 =>
        obtain ⟨g1, ws1, tr1⟩ := q1
        simp only [hr] at h
        cases he : genEntries c p rest snap rel L d g1 with
        | none => simp only [he] at h; simp at h
        | some q2 =>
          obtain ⟨ga, wsa, tra⟩ := q2
          simp only [he] at h
          simp at h
          exact ⟨ty, g1, ws1, tr1, wsa, tra, rfl, rfl, hr, by rw [he, h.1],
            h.2.1.symm, h.2.2.symm⟩

mutual

theorem genRec_gext {c p : Nat} {t : TmpTree} {L : Layout} {d : Nat} {g g' : Graph}
    {ws : List Write} {tr : List (Nat × String)}
    (hwf : Graph.wf g) (hp : p < g.nextId)
    (h : generateGeoContextRec c p t L d g = some (g', ws, tr)) :
    Gext g g' tr ∧ Graph.wf g' := by
  cases t with
  | leaf items =>
    rw [genRec_leaf_eq] at h
    simp at h
    rw [← h.1]
    exact ⟨gext_rfl g tr, hwf⟩
  | group es =>
    obtain ⟨rel, trE, hrel, hge, htr⟩ := genRec_group_inv h
    have hsnap : ∀ x ∈ childSnapshot g p rel, x.1 < g.nextId := fun x hx =>
      childIds_lt hwf (mem_childSnapshot hx).1
    have hres := genEntries_gext hwf hp hsnap hge
    rw [htr]
    exact hres

theorem genEntries_gext {c p : Nat} {es : List (String × TmpTree)}
    {snap : List (Nat × String)} {rel : String} {L : Layout} {d : Nat} {g g' : Graph}
    {ws : List Write} {tr : List (Nat × String)}
    (hwf : Graph.wf g) (hp : p < g.nextId) (hsnap : ∀ x ∈ snap, x.1 < g.nextId)
    (h : genEntries c p es snap rel L d g = some (g', ws, tr)) :
    Gext g g' ((p, rel) :: tr) ∧ Graph.wf g' := by
  cases es with
  | nil =>
    rw [genEntries_nil_eq] at h
    simp at h
    rw [← h.1]
    exact ⟨gext_rfl g _, hwf⟩
  | cons e rest =>
    obtain ⟨nm, sub⟩ := e
    rcases genEntries_cons_inv h with
      ⟨cid, g1, ws1, tr1, ws2, tr2, hf, hr, he, hws, htr⟩ |
      ⟨ty, g1, ws1, tr1, ws2, tr2, hf, hty, hr, he, hws, htr⟩
    · have hcid : cid < g.nextId := hsnap _ (findInSnap_mem hf)
      have ih1 := genRec_gext hwf hcid hr
      have hple : g.nextId ≤ g1.nextId := ih1.1.1
      have ih2 := genEntries_gext ih1.2 (lt_of_lt_of_le hp hple)
        (fun x hx => lt_of_lt_of_le (hsnap x hx) hple) he
      constructor
      · rw [htr]
        refine gext_trans (gext_mono ?_ ih1.1) (gext_mono ?_ ih2.1)
        · intro x hx
          simp [hx]
        · intro x hx
          simp at hx
          rcases hx with hx | hx <;> simp [hx]
      · exact ih2.2
    · have hwf1 : Graph.wf (createAttach g p nm ty rel) := createAttach_wf nm ty rel hwf hp
      have hlt1 : g.nextId < (createAttach g p nm ty rel).nextId := by simp [createAttach]
      have ih1 := genRec_gext hwf1 hlt1 hr
      have hple : g.nextId ≤ g1.nextId := le_trans (le_of_lt hlt1) ih1.1.1
      have ih2 := genEntries_gext ih1.2 (lt_of_lt_of_le hp hple)
        (fun x hx => lt_of_lt_of_le (hsnap x hx) hple) he
      constructor
      · rw [htr]
        refine gext_trans (gext_mono ?_ (createAttach_gext g p nm ty rel))
          (gext_trans (gext_mono ?_ ih1.1) (gext_mono ?_ ih2.1))
        · intro x hx
          simp at hx
          simp [hx]
        · intro x hx
          simp [hx]
        · intro x hx
          simp at hx
          rcases hx with hx | hx <;> simp [hx]
      · exact ih2.2

end

mutual

theorem sat_mono {g g' : Graph} (hsp : SnapPrefix g g') {p : Nat} {t : TmpTree}
    {L : Layout} {d : Nat} (hs : sat p t L d g) : sat p t L d g' := by
  cases t with
  | leaf items => rw [sat]; trivial
  | group es =>
    rw [sat] at hs ⊢
    obtain ⟨rel, hrel, hsl⟩ := hs
    exact ⟨rel, hrel, satL_mono hsp hsl⟩

theorem satL_mono {g g' : Graph} (hsp : SnapPrefix g g') {p : Nat}
    {es : List (String × TmpTree)} {rel : String} {L : Layout} {d : Nat}
    (hs : satL p es rel L d g) : satL p es rel L d g' := by
  cases es with
  | nil => rw [satL]; trivial
  | cons e rest =>
    obtain ⟨nm, sub⟩ := e
    rw [satL] at hs ⊢
    obtain ⟨⟨cid, hf, hsub⟩, hrest⟩ := hs
    obtain ⟨ext, hext⟩ := hsp p rel
    refine ⟨⟨cid, ?_, sat_mono hsp hsub⟩, satL_mono hsp hrest⟩
    rw [hext]
    exact findInSnap_append_some hf ext

end

theorem nameOf_createAttach_fresh {g : Graph} (hwf : Graph.wf g) (p : Nat)
    (nm ty rel : String) :
    nameOf (createAttach g p nm ty rel) g.nextId = some nm := by
  unfold nameOf createAttach
  simp only []
  rw [List.find?_append]
  have h1 : g.nodes.find? (fun n => n.nid == g.nextId) = none := by
    rw [List.find?_eq_none]
    intro n hn
    have := hwf.1 n hn
    simp
    omega
  rw [h1]
  simp

theorem createAttach_snapshot {g : Graph} (hwf : Graph.wf g) (p : Nat) (nm ty rel : String) :
    childSnapshot (createAttach g p nm ty rel) p rel =
      childSnapshot g p rel ++ [(g.nextId, nm)] := by
  have hids : childIds (createAttach g p nm ty rel) p rel = childIds g p rel ++ [g.nextId] := by
    unfold childIds createAttach
    simp only []
    rw [List.filterMap_append]
    simp
  unfold childSnapshot
  rw [hids, List.filterMap_append]
  have hcongr : (childIds g p rel).filterMap
        (fun cid => (nameOf (createAttach g p nm ty rel) cid).map fun s => (cid, s)) =
      (childIds g p rel).filterMap (fun cid => (nameOf g cid).map fun s => (cid, s)) := by
    apply filterMap_congr_mem
    intro cid hcid
    rw [nameOf_gext (createAttach_gext g p nm ty rel) (childIds_lt hwf hcid)]
  rw [hcongr]
  congr 1
  simp [nameOf_createAttach_fresh hwf p nm ty rel]

theorem findInSnap_cons_self (cid : Nat) (nm : String) (l : List (Nat × String)) :
    findInSnap ((cid, nm) :: l) nm = some cid := by
  simp [findInSnap, List.find?_cons_of_pos]

mutual

theorem runSat {c p : Nat} {t : TmpTree} {L : Layout} {d : Nat} {g g' : Graph}
    {ws : List Write} {tr : List (Nat × String)}
    (hwf : Graph.wf g) (hp : p < g.nextId) (hk : t.keysOk = true)
    (h : generateGeoContextRec c p t L d g = some (g', ws, tr)) (hnd : tr.Nodup) :
    sat p t L d g' := by
  cases t with
  | leaf items => rw [sat]; trivial
  | group es =>
    obtain ⟨rel, trE, hrel, hge, htr⟩ := genRec_group_inv h
    rw [htr] at hnd
    rw [List.nodup_cons] at hnd
    rw [TmpTree.keysOk, Bool.and_eq_true] at hk
    have hsb : ∀ x ∈ childSnapshot g p rel, x.1 < g.nextId := fun x hx =>
      childIds_lt hwf (mem_childSnapshot hx).1
    have hres := runSatL hwf hp hk.2 hk.1 hsb hge hnd.2 hnd.1
      ⟨[], by simp, by simp⟩
    rw [sat]
    exact ⟨rel, hrel, hres.1⟩

theorem runSatL {c p : Nat} {es : List (String × TmpTree)} {snap : List (Nat × String)}
    {rel : String} {L : Layout} {d : Nat} {g g' : Graph}
    {ws : List Write} {tr : List (Nat × String)}
    (hwf : Graph.wf g) (hp : p < g.nextId)
    (hks : keysOkList es = true) (hdk : distinctKeys (es.map Prod.fst) = true)
    (hsb : ∀ x ∈ snap, x.1 < g.nextId)
    (h : genEntries c p es snap rel L d g = some (g', ws, tr))
    (hnd : tr.Nodup) (hpr : (p, rel) ∉ tr)
    (hs : ∃ d0 : List (Nat × String), childSnapshot g p rel = snap ++ d0 ∧
      ∀ x ∈ d0, x.2 ∉ es.map Prod.fst) :
    satL p es rel L d g' ∧
      ∃ dE : List (Nat × String), childSnapshot g' p rel = childSnapshot g p rel ++ dE ∧
        ∀ x ∈ dE, x.2 ∈ es.map Prod.fst := by
  cases es with
  | nil =>
    rw [genEntries_nil_eq] at h
    simp at h
    rw [← h.1]
    exact ⟨by rw [satL]; trivial, ⟨[], by simp, by simp⟩⟩
  | cons e rest =>
    obtain ⟨nm, sub⟩ := e
    rw [keysOkList, Bool.and_eq_true] at hks
    have hdk' : nm ∉ rest.map Prod.fst ∧ distinctKeys (rest.map Prod.fst) = true := by
      simp only [List.map_cons, distinctKeys, Bool.and_eq_true] at hdk
      refine ⟨?_, hdk.2⟩
      intro hmem
      have h2 := hdk.1
      rw [show (rest.map Prod.fst).contains nm = true from List.elem_eq_true_of_mem hmem] at h2
      simp at h2
    obtain ⟨d0, hsnapeq, hd0⟩ := hs
    rcases genEntries_cons_inv h with
      ⟨cid, g1, ws1, tr1, ws2, tr2, hf, hr, he, hws, htr⟩ |
      ⟨ty, g1, ws1, tr1, ws2, tr2, hf, hty, hr, he, hws, htr⟩
    · rw [htr] at hnd hpr
      have hnd1 : tr1.Nodup := hnd.of_append_left
      have hnd2 : tr2.Nodup := hnd.of_append_right
      have hpr1 : (p, rel) ∉ tr1 := fun hx => hpr (List.mem_append.mpr (Or.inl hx))
      have hpr2 : (p, rel) ∉ tr2 := fun hx => hpr (List.mem_append.mpr (Or.inr hx))
      have hcid : cid < g.nextId := hsb _ (findInSnap_mem hf)
      have mega1 := genRec_gext hwf hcid hr
      have ih1 := runSat hwf hcid hks.1 hr hnd1
      have hsnap1 : childSnapshot g1 p rel = childSnapshot g p rel :=
        childSnapshot_gext_not_mem hwf mega1.1 hpr1
      have hple : g.nextId ≤ g1.nextId := mega1.1.1
      have ih2 := runSatL mega1.2 (lt_of_lt_of_le hp hple) hks.2 hdk'.2
        (fun x hx => lt_of_lt_of_le (hsb x hx) hple) he hnd2 hpr2
        ⟨d0, by rw [hsnap1, hsnapeq], fun x hx hmem => hd0 x hx (by simp [hmem])⟩
      obtain ⟨hsatrest, dE, hdE, hdEn⟩ := ih2
      have mega2 := genEntries_gext mega1.2 (lt_of_lt_of_le hp hple)
        (fun x hx => lt_of_lt_of_le (hsb x hx) hple) he
      have hfin : childSnapshot g' p rel = snap ++ (d0 ++ dE) := by
        rw [hdE, hsnap1, hsnapeq, List.append_assoc]
      refine ⟨?_, ⟨dE, by rw [hdE, hsnap1], fun x hx => by simp [hdEn x hx]⟩⟩
      rw [satL]
      refine ⟨⟨cid, ?_, ?_⟩, hsatrest⟩
      · rw [hfin]
        exact findInSnap_append_some hf _
      · exact sat_mono (snapPrefix_of_gext mega1.2 mega2.1) ih1
    · rw [htr] at hnd hpr
      have hnd1 : tr1.Nodup := hnd.of_append_left
      have hnd2 : tr2.Nodup := hnd.of_append_right
      have hpr1 : (p, rel) ∉ tr1 := fun hx => hpr (List.mem_append.mpr (Or.inl hx))
      have hpr2 : (p, rel) ∉ tr2 := fun hx => hpr (List.mem_append.mpr (Or.inr hx))
      have hwfP : Graph.wf (createAttach g p nm ty rel) := createAttach_wf nm ty rel hwf hp
      have hltP : g.nextId < (createAttach g p nm ty rel).nextId := by simp [createAttach]
      have hsnapP : childSnapshot (createAttach g p nm ty rel) p rel =
          childSnapshot g p rel ++ [(g.nextId, nm)] := createAttach_snapshot hwf p nm ty rel
      have mega1 := genRec_gext hwfP hltP hr
      have ih1 := runSat hwfP hltP hks.1 hr hnd1
      have hsnap1 : childSnapshot g1 p rel =
          childSnapshot (createAttach g p nm ty rel) p rel :=
        childSnapshot_gext_not_mem hwfP mega1.1 hpr1
      have hple : g.nextId ≤ g1.nextId := le_trans (le_of_lt hltP) mega1.1.1
      have ih2 := runSatL mega1.2 (lt_of_lt_of_le hp hple) hks.2 hdk'.2
        (fun x hx => lt_of_lt_of_le (hsb x hx) hple) he hnd2 hpr2
        ⟨d0 ++ [(g.nextId, nm)], by
          rw [hsnap1, hsnapP, hsnapeq, List.append_assoc], by
          intro x hx hmem
          rcases List.mem_append.mp hx with hx' | hx'
          · exact hd0 x hx' (by simp [hmem])
          · simp at hx'
            rw [hx'] at hmem
            exact hdk'.1 hmem⟩
      obtain ⟨hsatrest, dE, hdE, hdEn⟩ := ih2
      have mega2 := genEntries_gext mega1.2 (lt_of_lt_of_le hp hple)
        (fun x hx => lt_of_lt_of_le (hsb x hx) hple) he
      have hfin : childSnapshot g' p rel = snap ++ (d0 ++ ((g.nextId, nm) :: dE)) := by
        rw [hdE, hsnap1, hsnapP, hsnapeq]
        simp [List.append_assoc]
      refine ⟨?_, ⟨(g.nextId, nm) :: dE, by
        rw [hdE, hsnap1, hsnapP]
        simp [List.append_assoc], by
        intro x hx
        rcases List.mem_cons.mp hx with hx' | hx'
        · rw [hx']
          simp
        · simp [hdEn x hx']⟩⟩
      rw [satL]
      refine ⟨⟨g.nextId, ?_, ?_⟩, hsatrest⟩
      · rw [hfin, findInSnap_append_none hf, findInSnap_append_none (findInSnap_eq_none ?_)]
        · exact findInSnap_cons_self _ _ _
        · intro x hx hxx
          exact hd0 x hx (by simp [hxx])
      · exact sat_mono (snapPrefix_of_gext mega1.2 mega2.1) ih1

end

theorem countAdds_nil : countAdds [] = 0 := rfl

theorem countAdds_append (ws1 ws2 : List Write) :
    countAdds (ws1 ++ ws2) = countAdds ws1 + countAdds ws2 := by
  unfold countAdds
  rw [List.filter_append, List.length_append]

theorem countAdds_map_bim (c p : Nat) (items : List ExternalItem) :
    countAdds (items.map fun it => Write.addBIM c p it.dbId it.name) = 0 := by
  unfold countAdds
  rw [List.filter_eq_nil_iff.mpr]
  · rfl
  · intro w hw
    rw [List.mem_map] at hw
    obtain ⟨it, _, hit⟩ := hw
    rw [← hit]
    simp [Write.isCreate]

mutual

theorem satRun {p : Nat} {t : TmpTree} {L : Layout} {d : Nat} {g : Graph}
    (hs : sat p t L d g) (c : Nat) :
    ∃ ws tr, generateGeoContextRec c p t L d g = some (g, ws, tr) ∧ countAdds ws = 0 := by
  cases t with
  | leaf items =>
    exact ⟨_, _, genRec_leaf_eq c p items L d g, countAdds_map_bim c p items⟩
  | group es =>
    rw [sat] at hs
    obtain ⟨rel, hrel, hsl⟩ := hs
    obtain ⟨ws, tr, hE, hcnt⟩ := satRunL hsl c
    refine ⟨ws, (p, rel) :: tr, ?_, hcnt⟩
    rw [generateGeoContextRec]
    simp only [hrel, hE]

theorem satRunL {p : Nat} {es : List (String × TmpTree)} {rel : String} {L : Layout}
    {d : Nat} {g : Graph} (hs : satL p es rel L d g) (c : Nat) :
    ∃ ws tr, genEntries c p es (childSnapshot g p rel) rel L d g = some (g, ws, tr) ∧
      countAdds ws = 0 := by
  cases es with
  | nil => exact ⟨[], [], genEntries_nil_eq c p _ rel L d g, rfl⟩
  | cons e rest =>
    obtain ⟨nm, sub⟩ := e
    rw [satL] at hs
    obtain ⟨⟨cid, hf, hsub⟩, hrest⟩ := hs
    obtain ⟨ws1, tr1, h1, hc1⟩ := satRun hsub c
    obtain ⟨ws2, tr2, h2, hc2⟩ := satRunL hrest c
    refine ⟨ws1 ++ ws2, tr1 ++ tr2, ?_, by rw [countAdds_append, hc1, hc2]⟩
    rw [genEntries]
    simp only [hf, h1, h2]

end

/-- **C1** (counterexample).  As stated — for *every* fixed Layout and
existing graph state — the idempotence claim is false: starting from `cexG`
(a graph whose context node `0` is named `"A"` and is its own child under
`"R"`, with the same relation name at both layout depths), the first run of
the Recursive Materializer yields `cexG1`, but a second run over the same
dataset performs one further node creation and ends in `cexG2 ≠ cexG1`:
run 1 re-enters parent `0` under `"R"` while the level snapshot is already
taken, so its creations for `"B"` land behind a same-named node that run 2's
first-match lookup then picks instead. -/
theorem C1_counterexample :
    generateGeoContextRec 9 0 cexTree cexLayout 0 cexG = some (cexG1, cexWs1, cexTr1) ∧
      (generateGeoContextRec 9 0 cexTree cexLayout 0 cexG1).map
          (fun r => (r.1, countAdds r.2.1)) = some (cexG2, 1) ∧
      cexG2 ≠ cexG1 := by
  refine ⟨by decide, by decide, by decide⟩

/-- **C1** (amended).  For a fixed Layout and a fixed existing well-formed
graph state, if the first materializer run visits no `(parent, relation)`
pair twice — which the pre-existing cycle of the counterexample violates,
and which holds in particular whenever the graph reachable from the context
is acyclic — and the dataset's Groups have pairwise-distinct keys (the `Map`
invariant), then running the Recursive Materializer a second time against
the same Hierarchical Dataset creates zero additional Graph Nodes and leaves
the node/edge set exactly as it was after run 1. -/
theorem C1_idempotent (c p : Nat) (t : TmpTree) (L : Layout) (d : Nat) (g g1 : Graph)
    (ws1 : List Write) (tr1 : List (Nat × String))
    (hwf : Graph.wf g) (hp : p < g.nextId) (hk : t.keysOk = true)
    (h1 : generateGeoContextRec c p t L d g = some (g1, ws1, tr1)) (hnd : tr1.Nodup) :
    (generateGeoContextRec c p t L d g1).map (fun r => (r.1, countAdds r.2.1)) =
      some (g1, 0) := by
  have hsat := runSat hwf hp hk h1 hnd
  obtain ⟨ws2, tr2, h2, hc⟩ := satRun hsat c
  rw [h2]
  simp [hc]

/-- **C1** (witness).  A concrete run of the amended idempotence theorem:
one group entry is created below the context on the first run and reused on
the second. -/
theorem C1_witness :
    (generateGeoContextRec 0 0 wT wL 0 wG1).map (fun r => (r.1, countAdds r.2.1)) =
      some (wG1, 0) :=
  C1_idempotent 0 0 wT wL 0 wG wG1 [Write.addChild 0 1 "A" "T" "R" 0] [(0, "R")]
    (by decide) (by decide) (by decide) (by decide) (by decide)

theorem parentsSeen_mono {s s' : List Nat} (hsub : ∀ x ∈ s, x ∈ s') :
    ∀ {ws : List Write}, parentsSeen s ws → parentsSeen s' ws := by
  intro ws
  induction ws generalizing s s' with
  | nil => intro h; rw [parentsSeen]; trivial
  | cons w ws ih =>
    intro h
    rw [parentsSeen] at h ⊢
    refine ⟨hsub _ h.1, ?_⟩
    cases hc : w.createdChild with
    | none =>
      rw [hc] at h
      exact ih hsub h.2
    | some cid =>
      rw [hc] at h
      refine ih ?_ h.2
      intro x hx
      rcases List.mem_append.mp hx with hx' | hx'
      · exact List.mem_append.mpr (Or.inl (hsub x hx'))
      · exact List.mem_append.mpr (Or.inr hx')

theorem parentsSeen_append {s : List Nat} {ws1 ws2 : List Write}
    (h1 : parentsSeen s ws1)
    (h2 : parentsSeen (s ++ ws1.filterMap Write.createdChild) ws2) :
    parentsSeen s (ws1 ++ ws2) := by
  induction ws1 generalizing s with
  | nil =>
    simp at h2
    exact h2
  | cons w ws1 ih =>
    rw [parentsSeen] at h1
    rw [List.cons_append, parentsSeen]
    refine ⟨h1.1, ?_⟩
    cases hc : w.createdChild with
    | none =>
      rw [hc] at h1
      apply ih h1.2
      rw [List.filterMap_cons, hc] at h2
      exact h2
    | some cid =>
      rw [hc] at h1
      apply ih h1.2
      rw [List.filterMap_cons, hc] at h2
      rw [List.append_assoc]
      simpa using h2

theorem parentsSeen_map_bim {s : List Nat} {p c : Nat} (hp : p ∈ s)
    (items : List ExternalItem) :
    parentsSeen s (items.map fun it => Write.addBIM c p it.dbId it.name) := by
  induction items with
  | nil => rw [List.map_nil, parentsSeen]; trivial
  | cons it items ih =>
    rw [List.map_cons, parentsSeen]
    exact ⟨hp, ih⟩

theorem createdChild_map_bim (c p : Nat) (items : List ExternalItem) :
    (items.map fun it => Write.addBIM c p it.dbId it.name).filterMap Write.createdChild = [] := by
  induction items with
  | nil => rfl
  | cons it items ih => rw [List.map_cons, List.filterMap_cons]; exact ih

theorem createAttach_nodeIds (g : Graph) (p : Nat) (nm ty rel : String) :
    nodeIds (createAttach g p nm ty rel) = nodeIds g ++ [g.nextId] := by
  simp [createAttach, nodeIds]

mutual

theorem genRec_writes {c p : Nat} {t : TmpTree} {L : Layout} {d : Nat} {g g' : Graph}
    {ws : List Write} {tr : List (Nat × String)}
    (hp : p ∈ nodeIds g)
    (h : generateGeoContextRec c p t L d g = some (g', ws, tr)) :
    nodeIds g' = nodeIds g ++ ws.filterMap Write.createdChild ∧
      parentsSeen (nodeIds g) ws := by
  cases t with
  | leaf items =>
    rw [genRec_leaf_eq] at h
    simp at h
    rw [← h.1, ← h.2.1]
    exact ⟨by rw [createdChild_map_bim]; simp, parentsSeen_map_bim hp items⟩
  | group es =>
    obtain ⟨rel, trE, hrel, hge, htr⟩ := genRec_group_inv h
    exact genEntries_writes hp
      (fun x hx => nameOf_mem_nodeIds (mem_childSnapshot hx).2) hge

theorem genEntries_writes {c p : Nat} {es : List (String × TmpTree)}
    {snap : List (Nat × String)} {rel : String} {L : Layout} {d : Nat} {g g' : Graph}
    {ws : List Write} {tr : List (Nat × String)}
    (hp : p ∈ nodeIds g) (hsnap : ∀ x ∈ snap, x.1 ∈ nodeIds g)
    (h : genEntries c p es snap rel L d g = some (g', ws, tr)) :
    nodeIds g' = nodeIds g ++ ws.filterMap Write.createdChild ∧
      parentsSeen (nodeIds g) ws := by
  cases es with
  | nil =>
    rw [genEntries_nil_eq] at h
    simp at h
    rw [← h.1, h.2.1]
    exact ⟨by simp, by rw [parentsSeen]; trivial⟩
  | cons e rest =>
    obtain ⟨nm, sub⟩ := e
    rcases genEntries_cons_inv h with
      ⟨cid, g1, ws1, tr1, ws2, tr2, hf, hr, he, hws, htr⟩ |
      ⟨ty, g1, ws1, tr1, ws2, tr2, hf, hty, hr, he, hws, htr⟩
    · have hcid : cid ∈ nodeIds g := hsnap _ (findInSnap_mem hf)
      have ih1 := genRec_writes hcid hr
      have hsub1 : ∀ x ∈ nodeIds g, x ∈ nodeIds g1 := by
        intro x hx
        rw [ih1.1]
        exact List.mem_append.mpr (Or.inl hx)
      have ih2 := genEntries_writes (hsub1 _ hp) (fun x hx => hsub1 _ (hsnap x hx)) he
      constructor
      · rw [ih2.1, ih1.1, hws, List.filterMap_append, List.append_assoc]
      · rw [hws]
        refine parentsSeen_append ih1.2 ?_
        rw [← ih1.1]
        exact ih2.2
    · have hcidP : g.nextId ∈ nodeIds (createAttach g p nm ty rel) := by
        rw [createAttach_nodeIds]
        simp
      have ih1 := genRec_writes hcidP hr
      have hsubP : ∀ x ∈ nodeIds g, x ∈ nodeIds (createAttach g p nm ty rel) := by
        intro x hx
        rw [createAttach_nodeIds]
        exact List.mem_append.mpr (Or.inl hx)
      have hsub1 : ∀ x ∈ nodeIds (createAttach g p nm ty rel), x ∈ nodeIds g1 := by
        intro x hx
        rw [ih1.1]
        exact List.mem_append.mpr (Or.inl hx)
      have ih2 := genEntries_writes (hsub1 _ (hsubP _ hp))
        (fun x hx => hsub1 _ (hsubP _ (hsnap x hx))) he
      constructor
      · rw [ih2.1, ih1.1, createAttach_nodeIds, hws, List.filterMap_cons]
        simp only [Write.createdChild]
        rw [List.filterMap_append]
        simp [List.append_assoc]
      · rw [hws, parentsSeen]
        refine ⟨hp, ?_⟩
        simp only [Write.createdChild]
        rw [← createAttach_nodeIds g p nm ty rel]
        refine parentsSeen_append ih1.2 ?_
        rw [← ih1.1]
        exact ih2.2

end

/-- **C4** (confirmed).  The pending-write sequence is emitted in depth-first
pre-order: scanning the emitted writes left to right, every write attaches to
a parent that is either a node of the initial graph or the child created by
an earlier `addChildInContext` write of the sequence (`parentsSeen`), so a
consumer always sees a parent's creation write before any of its
descendants' writes; moreover the created nodes of the final graph are
exactly the children of the emitted creation writes, appended in emission
order — one creation write per created node. -/
theorem C4_preorder (c p : Nat) (t : TmpTree) (L : Layout) (d : Nat) (g g' : Graph)
    (ws : List Write) (tr : List (Nat × String))
    (hp : p ∈ nodeIds g)
    (h : generateGeoContextRec c p t L d g = some (g', ws, tr)) :
    parentsSeen (nodeIds g) ws ∧
      nodeIds g' = nodeIds g ++ ws.filterMap Write.createdChild :=
  ⟨(genRec_writes hp h).2, (genRec_writes hp h).1⟩

/-- **C4** (witness).  The pre-order theorem applied to a concrete run that
creates one node below the context. -/
theorem C4_witness :
    parentsSeen (nodeIds wG) [Write.addChild 0 1 "A" "T" "R" 0] ∧
      nodeIds wG1 = nodeIds wG ++
        [Write.addChild 0 1 "A" "T" "R" 0].filterMap Write.createdChild :=
  C4_preorder 0 0 wT wL 0 wG wG1 [Write.addChild 0 1 "A" "T" "R" 0] [(0, "R")]
    (by decide) (by decide)

mutual

theorem depthOk_isSome {t : TmpTree} {d : Nat} {L : Layout}
    (hd : t.depthOk d (min L.relations.length L.types.length) = true)
    (c p : Nat) (g : Graph) :
    (generateGeoContextRec c p t L d g).isSome = true := by
  cases t with
  | leaf items => rw [genRec_leaf_eq]; rfl
  | group es =>
    rw [TmpTree.depthOk, Bool.and_eq_true] at hd
    have hlt : d < min L.relations.length L.types.length := by
      have h9 := hd.1
      simp [Nat.blt_eq] at h9
      omega
    rw [generateGeoContextRec]
    cases hrel : L.relations.get? d with
    | none =>
      rw [List.get?_eq_none] at hrel
      exfalso
      omega
    | some rel =>
      have hrest := depthOkList_isSome hd.2 hlt c p g (childSnapshot g p rel) rel
      obtain ⟨q, hq⟩ := Option.isSome_iff_exists.mp hrest
      obtain ⟨g1, ws1, tr1⟩ := q
      simp only [hq]
      rfl

theorem depthOkList_isSome {es : List (String × TmpTree)} {d : Nat} {L : Layout}
    (hd : depthOkList es (d + 1) (min L.relations.length L.types.length) = true)
    (hlt : d < min L.relations.length L.types.length)
    (c p : Nat) (g : Graph) (snap : List (Nat × String)) (rel : String) :
    (genEntries c p es snap rel L d g).isSome = true := by
  cases es with
  | nil => rw [genEntries_nil_eq]; rfl
  | cons e rest =>
    obtain ⟨nm, sub⟩ := e
    rw [depthOkList, Bool.and_eq_true] at hd
    rw [genEntries]
    cases hf : findInSnap snap nm with
    | some cid =>
      have h1 := depthOk_isSome hd.1 c cid g
      obtain ⟨q1, hq1⟩ := Option.isSome_iff_exists.mp h1
      obtain ⟨g1, ws1, tr1⟩ := q1
      have h2 := depthOkList_isSome hd.2 hlt c p g1 snap rel
      obtain ⟨q2, hq2⟩ := Option.isSome_iff_exists.mp h2
      obtain ⟨g2, ws2, tr2⟩ := q2
      simp only [hq1, hq2]
      rfl
    | none =>
      cases hty : L.types.get? d with
      | none =>
        rw [List.get?_eq_none] at hty
        exfalso
        omega
      | some ty =>
        have h1 := depthOk_isSome hd.1 c g.nextId (createAttach g p nm ty rel)
        obtain ⟨q1, hq1⟩ := Option.isSome_iff_exists.mp h1
        obtain ⟨g1, ws1, tr1⟩ := q1
        have h2 := depthOkList_isSome hd.2 hlt c p g1 snap rel
        obtain ⟨q2, hq2⟩ := Option.isSome_iff_exists.mp h2
        obtain ⟨g2, ws2, tr2⟩ := q2
        simp only [hq1, hq2]
        rfl

end

/-- **C9** (confirmed).  If every Group of the dataset sits at a depth
strictly below the length of both layout arrays, then every layout access of
the run is in bounds — the embedded run never takes its out-of-bounds `none`
branch — and Leaf processing succeeds for *any* layout and depth without
indexing the layout at all. -/
theorem C9_bounds (c p : Nat) (t : TmpTree) (L : Layout) (d : Nat) (g : Graph)
    (hd : t.depthOk d (min L.relations.length L.types.length) = true) :
    (generateGeoContextRec c p t L d g).isSome = true ∧
      ∀ (items : List ExternalItem) (L2 : Layout) (d2 : Nat),
        generateGeoContextRec c p (.leaf items) L2 d2 g =
          some (g, items.map fun it => Write.addBIM c p it.dbId it.name, []) :=
  ⟨depthOk_isSome hd c p g, fun items L2 d2 => genRec_leaf_eq c p items L2 d2 g⟩

/-- **C9** (witness).  The bounds theorem applied at a concrete dataset and
single-depth layout; the leaf part is instantiated with the *empty* layout,
which leaves leaf processing untouched. -/
theorem C9_witness :
    (generateGeoContextRec 0 0 wT wL 0 wG).isSome = true ∧
      generateGeoContextRec 0 0 (.leaf [⟨7, "x"⟩]) ⟨[], [], []⟩ 5 wG =
        some (wG, [Write.addBIM 0 0 7 "x"], []) :=
  ⟨(C9_bounds 0 0 wT wL 0 wG (by decide)).1,
    (C9_bounds 0 0 wT wL 0 wG (by decide)).2 [⟨7, "x"⟩] ⟨[], [], []⟩ 5⟩

theorem mem_childSnapshot_intro {g : Graph} {p : Nat} {rel nm : String} {cid : Nat}
    (hc : cid ∈ childIds g p rel) (hn : nameOf g cid = some nm) :
    (cid, nm) ∈ childSnapshot g p rel := by
  unfold childSnapshot
  rw [List.mem_filterMap]
  exact ⟨cid, hc, by rw [hn]; rfl⟩

/-- **C5** (confirmed).  Resolver results are matched to requested names
purely by name equality, never by position: (1) whatever order the resolver
returns the children in (any permutation of the snapshot), a name is found
iff the parent really has a child of that name under the relation; (2) a
found child really is a child of that name; (3) when the lookup for an
entry's name hits, the found child becomes the recursion parent of the
entry's subtree and the entry contributes no pending write of its own — the
emitted writes are exactly the subtree's writes followed by the remaining
entries' writes. -/
theorem C5_matching :
    (∀ (g : Graph) (p : Nat) (rel nm : String) (snap2 : List (Nat × String)),
      (childSnapshot g p rel).Perm snap2 →
      ((findInSnap snap2 nm).isSome ↔ ∃ x ∈ childIds g p rel, nameOf g x = some nm)) ∧
    (∀ (g : Graph) (p : Nat) (rel nm : String) (snap2 : List (Nat × String)) (cid : Nat),
      (childSnapshot g p rel).Perm snap2 → findInSnap snap2 nm = some cid →
      nameOf g cid = some nm ∧ cid ∈ childIds g p rel) ∧
    ∀ (c p : Nat) (snap : List (Nat × String)) (rel nm : String) (sub : TmpTree)
      (rest : List (String × TmpTree)) (L : Layout) (d : Nat) (g0 g2 : Graph)
      (ws : List Write) (tr : List (Nat × String)) (cid : Nat),
      findInSnap snap nm = some cid →
      genEntries c p ((nm, sub) :: rest) snap rel L d g0 = some (g2, ws, tr) →
      ∃ g1 ws1 tr1 ws2 tr2,
        generateGeoContextRec c cid sub L (d + 1) g0 = some (g1, ws1, tr1) ∧
          genEntries c p rest snap rel L d g1 = some (g2, ws2, tr2) ∧ ws = ws1 ++ ws2 := by
  refine ⟨?_, ?_, ?_⟩
  · intro g p rel nm snap2 hperm
    unfold findInSnap
    constructor
    · intro hsome
      cases hfind : snap2.find? (fun ch => ch.2 == nm) with
      | none => rw [hfind] at hsome; simp at hsome
      | some x =>
        have hx := List.mem_of_find?_eq_some hfind
        have hpred := List.find?_some hfind
        have hx' : x ∈ childSnapshot g p rel := hperm.mem_iff.mpr hx
        have hmc := mem_childSnapshot hx'
        simp at hpred
        rw [hpred] at hmc
        exact ⟨x.1, hmc.1, hmc.2⟩
    · rintro ⟨cid, hcid, hname⟩
      have hmem : (cid, nm) ∈ snap2 :=
        hperm.mem_iff.mp (mem_childSnapshot_intro hcid hname)
      cases hfind : snap2.find? (fun ch => ch.2 == nm) with
      | some x => rfl
      | none =>
        exfalso
        have := List.find?_eq_none.mp hfind (cid, nm) hmem
        simp at this
  · intro g p rel nm snap2 cid hperm hf
    have hmem : (cid, nm) ∈ childSnapshot g p rel := hperm.mem_iff.mpr (findInSnap_mem hf)
    have := mem_childSnapshot hmem
    exact ⟨this.2, this.1⟩
  · intro c p snap rel nm sub rest L d g0 g2 ws tr cid hf hrun
    rcases genEntries_cons_inv hrun with
      ⟨cid', g1, ws1, tr1, ws2, tr2, hf', hr, he, hws, htr⟩ |
      ⟨ty, g1, ws1, tr1, ws2, tr2, hf', hty, hr, he, hws, htr⟩
    · rw [hf] at hf'
      have hc : cid' = cid := by injection hf'.symm
      rw [hc] at hr
      exact ⟨g1, ws1, tr1, ws2, tr2, hr, he, hws⟩
    · rw [hf] at hf'
      exact absurd hf' (by simp)

/-- **C5** (witness).  The matching theorem applied to the concrete graph
`wG1` (one child `1` named `"A"`), with the resolver result given as is. -/
theorem C5_witness :
    ((findInSnap [(1, "A")] "A").isSome ↔
      ∃ x ∈ childIds wG1 0 "R", nameOf wG1 x = some "A") ∧
    (nameOf wG1 1 = some "A" ∧ 1 ∈ childIds wG1 0 "R") ∧
    ∃ g1 ws1 tr1 ws2 tr2,
      generateGeoContextRec 0 1 (.leaf []) wL 1 wG1 = some (g1, ws1, tr1) ∧
        genEntries 0 0 [] [(1, "A")] "R" wL 0 g1 = some (wG1, ws2, tr2) ∧
        ([] : List Write) = ws1 ++ ws2 :=
  ⟨C5_matching.1 wG1 0 "R" "A" [(1, "A")] (by decide),
    C5_matching.2.1 wG1 0 "R" "A" [(1, "A")] 1 (by decide) (by decide),
    C5_matching.2.2 0 0 [(1, "A")] "R" "A" (.leaf []) [] wL 0 wG1 wG1 [] [] 1
      (by decide) (by decide)⟩

theorem foldl_batchStepB (ws : List Write) (st : Nat × Nat × Nat) :
    ws.foldl batchStepB st = stepsB st ws.length := by
  induction ws generalizing st with
  | nil => rfl
  | cons w ws ih => simpa [stepsB] using ih (batchStepB st w)

theorem stepsB_add (a b : Nat) (st : Nat × Nat × Nat) :
    stepsB st (a + b) = stepsB (stepsB st a) b := by
  induction a generalizing st with
  | zero => rw [Nat.zero_add]; rfl
  | succ a ih =>
    have h9 : a + 1 + b = (a + b) + 1 := by omega
    rw [h9]
    simp only [stepsB]
    exact ih (batchStepB st dummyWrite)

theorem stepsB_run (n len unconf mx : Nat) (h : unconf ≤ mx)
    (hlen : len + n < 300 ∨ 300 ≤ len) :
    stepsB (len, unconf, mx) n = (len + n, unconf + n, max mx (unconf + n)) := by
  induction n generalizing len unconf mx with
  | zero => simp [stepsB, Nat.max_eq_left h]
  | succ n ih =>
    have hne : len + 1 ≠ 300 := by rcases hlen with h9 | h9 <;> omega
    have hb : (len + 1 == 300) = false := by simpa using hne
    have hstep : batchStepB (len, unconf, mx) dummyWrite =
        (len + 1, unconf + 1, max mx (unconf + 1)) := by
      simp [batchStepB, MAX_NON_SYNCHRONIZED_NODES, hb]
    simp only [stepsB, hstep]
    rw [ih (len + 1) (unconf + 1) (max mx (unconf + 1)) (Nat.le_max_right _ _) (by omega)]
    have h1 : unconf + 1 ≤ unconf + 1 + n := by omega
    have h2 : max (max mx (unconf + 1)) (unconf + 1 + n) = max mx (unconf + (n + 1)) := by
      rw [Nat.max_assoc, Nat.max_eq_right h1]
      have h3 : unconf + 1 + n = unconf + (n + 1) := by omega
      rw [h3]
    rw [h2]
    have h4 : len + 1 + n = len + (n + 1) := by omega
    have h5 : unconf + 1 + n = unconf + (n + 1) := by omega
    rw [h4, h5]

theorem stepsB_601 : (stepsB (0, 0, 0) 601).2.2 = 301 := by
  have h1 : stepsB (0, 0, 0) 299 = (299, 299, 299) := by
    have h9 := stepsB_run 299 0 0 0 (le_refl 0) (by omega)
    simpa using h9
  have h2 : (601 : Nat) = 299 + 302 := by omega
  rw [h2, stepsB_add, h1]
  have h3 : (302 : Nat) = 1 + 301 := by omega
  rw [h3, stepsB_add]
  have h4 : stepsB (299, 299, 299) 1 = (300, 0, 300) := by
    simp [stepsB, batchStepB, MAX_NON_SYNCHRONIZED_NODES]
  rw [h4]
  rw [stepsB_run 301 300 0 300 (by omega) (by omega)]
  simp

theorem batchStepA_bound (ws : List Write) (len mx : Nat) (h1 : len < 300) (h2 : mx ≤ 300) :
    (ws.foldl batchStepA (len, mx)).2 ≤ 300 := by
  induction ws generalizing len mx with
  | nil => exact h2
  | cons w ws ih =>
    simp only [List.foldl_cons, batchStepA, MAX_NON_SYNCHRONIZED_NODES]
    by_cases hc : (len + 1 == 300) = true
    · simp only [hc, if_true]
      apply ih 0 _ (by omega)
      simp at hc
      omega
    · simp only [hc, if_false]
      apply ih _ _ _ (by omega)
      simp at hc
      omega

set_option maxRecDepth 20000 in
theorem c2writes_length : c2writes.length = 601 := by decide

/-- **C2** (code-bug evaluation).  Variant A's batcher (which resets
`promises = []` after each flush) never holds more than 300 concurrently
unconfirmed pending writes, on *any* write sequence.  Variant B's batcher
(`generateGeographicContext.js` lines 120–131) never resets the array, so on
the concrete failing input — a dataset of 600 items below one fresh group
node, emitting 601 pending writes — its `=== 300` check fires exactly once
and 301 unconfirmed writes accumulate before the final flush, exceeding the
threshold. -/
theorem C2_batch_bound :
    (∀ ws : List Write, maxUnconfA ws ≤ 300) ∧
      c2writes.length = 601 ∧ maxUnconfB c2writes = 301 := by
  refine ⟨?_, c2writes_length, ?_⟩
  · intro ws
    exact batchStepA_bound ws 0 0 (by omega) (by omega)
  · unfold maxUnconfB
    rw [foldl_batchStepB, c2writes_length, stepsB_601]

theorem progressTrace_eq_299 : progressTrace 299 300 = [10, 20, 29980 / 299, 100] := by
  simp [progressTrace, PROGRESS_BAR_SIZE_GET_PROPS, PROGRESS_BAR_SIZE_CREATE_TREE,
    PROGRESS_BAR_SIZE_CREATE_GRAPH, MAX_NON_SYNCHRONIZED_NODES, List.range_succ]
  norm_num

theorem progressTrace_bounds (n w : Nat) (hw : w ≤ n) :
    List.Chain' (· ≤ ·) (progressTrace n w) ∧
      ∀ v ∈ progressTrace n w, 0 ≤ v ∧ v ≤ 100 := by
  have hF300 : (w / MAX_NON_SYNCHRONIZED_NODES) * 300 ≤ n := by
    have h1 : (w / MAX_NON_SYNCHRONIZED_NODES) * 300 ≤ w := by
      unfold MAX_NON_SYNCHRONIZED_NODES
      exact Nat.div_mul_le_self w 300
    omega
  have hincr : (0 : ℚ) ≤ PROGRESS_BAR_SIZE_CREATE_GRAPH *
      (MAX_NON_SYNCHRONIZED_NODES : ℚ) / (n : ℚ) := by
    unfold PROGRESS_BAR_SIZE_CREATE_GRAPH MAX_NON_SYNCHRONIZED_NODES
    positivity
  have hFincr : ((w / MAX_NON_SYNCHRONIZED_NODES : Nat) : ℚ) *
      (PROGRESS_BAR_SIZE_CREATE_GRAPH * (MAX_NON_SYNCHRONIZED_NODES : ℚ) / (n : ℚ)) ≤ 80 := by
    unfold PROGRESS_BAR_SIZE_CREATE_GRAPH MAX_NON_SYNCHRONIZED_NODES at *
    rcases Nat.eq_zero_or_pos n with hn | hn
    · have hw0 : w = 0 := by omega
      rw [hn, hw0]
      norm_num
    · have hnq : (0 : ℚ) < (n : ℚ) := by positivity
      rw [← mul_div_assoc, div_le_iff₀ hnq]
      have hcast : ((w / 300 : Nat) : ℚ) * 300 ≤ (n : ℚ) := by exact_mod_cast hF300
      push_cast
      nlinarith
  have helem : ∀ k : Nat, k < w / MAX_NON_SYNCHRONIZED_NODES →
      (10 : ℚ) ≤ PROGRESS_BAR_SIZE_GET_PROPS + PROGRESS_BAR_SIZE_CREATE_TREE +
          ((k : ℚ) + 1) * (PROGRESS_BAR_SIZE_CREATE_GRAPH *
            (MAX_NON_SYNCHRONIZED_NODES : ℚ) / (n : ℚ)) ∧
      PROGRESS_BAR_SIZE_GET_PROPS + PROGRESS_BAR_SIZE_CREATE_TREE +
          ((k : ℚ) + 1) * (PROGRESS_BAR_SIZE_CREATE_GRAPH *
            (MAX_NON_SYNCHRONIZED_NODES : ℚ) / (n : ℚ)) ≤ 100 := by
    intro k hk
    have hk1 : ((k : ℚ) + 1) ≤ ((w / MAX_NON_SYNCHRONIZED_NODES : Nat) : ℚ) := by
      have : k + 1 ≤ w / MAX_NON_SYNCHRONIZED_NODES := hk
      exact_mod_cast this
    have hmul : ((k : ℚ) + 1) * (PROGRESS_BAR_SIZE_CREATE_GRAPH *
        (MAX_NON_SYNCHRONIZED_NODES : ℚ) / (n : ℚ)) ≤
        ((w / MAX_NON_SYNCHRONIZED_NODES : Nat) : ℚ) *
        (PROGRESS_BAR_SIZE_CREATE_GRAPH * (MAX_NON_SYNCHRONIZED_NODES : ℚ) / (n : ℚ)) :=
      mul_le_mul_of_nonneg_right hk1 hincr
    have hnonneg : (0 : ℚ) ≤ ((k : ℚ) + 1) * (PROGRESS_BAR_SIZE_CREATE_GRAPH *
        (MAX_NON_SYNCHRONIZED_NODES : ℚ) / (n : ℚ)) := by
      apply mul_nonneg _ hincr
      positivity
    unfold PROGRESS_BAR_SIZE_GET_PROPS PROGRESS_BAR_SIZE_CREATE_TREE at *
    constructor
    · linarith
    · linarith [hFincr]
  have hpw : List.Pairwise (· ≤ ·)
      ([PROGRESS_BAR_SIZE_GET_PROPS, PROGRESS_BAR_SIZE_GET_PROPS + PROGRESS_BAR_SIZE_CREATE_TREE]
      ++ (((List.range (w / MAX_NON_SYNCHRONIZED_NODES)).map fun (k : Nat) =>
        PROGRESS_BAR_SIZE_GET_PROPS + PROGRESS_BAR_SIZE_CREATE_TREE + ((k : ℚ) + 1) *
          (PROGRESS_BAR_SIZE_CREATE_GRAPH * (MAX_NON_SYNCHRONIZED_NODES : ℚ) / (n : ℚ)))
      ++ [100])) := by
    rw [List.pairwise_append]
    refine ⟨?_, ?_, ?_⟩
    · unfold PROGRESS_BAR_SIZE_GET_PROPS PROGRESS_BAR_SIZE_CREATE_TREE
      norm_num
    · rw [List.pairwise_append]
      refine ⟨?_, by simp, ?_⟩
      · apply List.Pairwise.map _ ?_ (List.pairwise_lt_range _)
        intro a b hab
        have hc : ((a : ℚ) + 1) ≤ ((b : ℚ) + 1) := by
          have : a + 1 ≤ b + 1 := by omega
          exact_mod_cast this
        have := mul_le_mul_of_nonneg_right hc hincr
        linarith
      · intro a ha b hb
        simp at hb
        rw [hb]
        rw [List.mem_map] at ha
        obtain ⟨k, hk, hka⟩ := ha
        rw [List.mem_range] at hk
        rw [← hka]
        exact (helem k hk).2
    · intro a ha b hb
      have ha' : a = PROGRESS_BAR_SIZE_GET_PROPS ∨
          a = PROGRESS_BAR_SIZE_GET_PROPS + PROGRESS_BAR_SIZE_CREATE_TREE := by
        simpa using ha
      have hb' : b ∈ ((List.range (w / MAX_NON_SYNCHRONIZED_NODES)).map fun (k : Nat) =>
          PROGRESS_BAR_SIZE_GET_PROPS + PROGRESS_BAR_SIZE_CREATE_TREE + ((k : ℚ) + 1) *
            (PROGRESS_BAR_SIZE_CREATE_GRAPH * (MAX_NON_SYNCHRONIZED_NODES : ℚ) / (n : ℚ)))
          ∨ b = 100 := by
        rcases List.mem_append.mp hb with h9 | h9
        · exact Or.inl h9
        · simp at h9
          exact Or.inr h9
      have hale : a ≤ PROGRESS_BAR_SIZE_GET_PROPS + PROGRESS_BAR_SIZE_CREATE_TREE := by
        unfold PROGRESS_BAR_SIZE_GET_PROPS PROGRESS_BAR_SIZE_CREATE_TREE at *
        rcases ha' with h9 | h9
        · rw [h9]; norm_num
        · rw [h9]
      have hble : PROGRESS_BAR_SIZE_GET_PROPS + PROGRESS_BAR_SIZE_CREATE_TREE ≤ b := by
        rcases hb' with h9 | h9
        · rw [List.mem_map] at h9
          obtain ⟨k, hk, hkb⟩ := h9
          rw [← hkb]
          have hnonneg : (0 : ℚ) ≤ ((k : ℚ) + 1) * (PROGRESS_BAR_SIZE_CREATE_GRAPH *
              (MAX_NON_SYNCHRONIZED_NODES : ℚ) / (n : ℚ)) := by
            apply mul_nonneg _ hincr
            positivity
          linarith
        · rw [h9]
          unfold PROGRESS_BAR_SIZE_GET_PROPS PROGRESS_BAR_SIZE_CREATE_TREE
          norm_num
      linarith
  have hmem : ∀ v ∈ ([PROGRESS_BAR_SIZE_GET_PROPS,
      PROGRESS_BAR_SIZE_GET_PROPS + PROGRESS_BAR_SIZE_CREATE_TREE]
      ++ (((List.range (w / MAX_NON_SYNCHRONIZED_NODES)).map fun (k : Nat) =>
        PROGRESS_BAR_SIZE_GET_PROPS + PROGRESS_BAR_SIZE_CREATE_TREE + ((k : ℚ) + 1) *
          (PROGRESS_BAR_SIZE_CREATE_GRAPH * (MAX_NON_SYNCHRONIZED_NODES : ℚ) / (n : ℚ)))
      ++ [100])), 0 ≤ v ∧ v ≤ 100 := by
    intro v hv
    rcases List.mem_append.mp hv with h9 | h9
    · have hv' : v = PROGRESS_BAR_SIZE_GET_PROPS ∨
          v = PROGRESS_BAR_SIZE_GET_PROPS + PROGRESS_BAR_SIZE_CREATE_TREE := by simpa using h9
      unfold PROGRESS_BAR_SIZE_GET_PROPS PROGRESS_BAR_SIZE_CREATE_TREE at *
      rcases hv' with h8 | h8 <;> (rw [h8]; norm_num)
    · rcases List.mem_append.mp h9 with h8 | h8
      · rw [List.mem_map] at h8
        obtain ⟨k, hk, hkv⟩ := h8
        rw [List.mem_range] at hk
        rw [← hkv]
        have h7 := helem k hk
        constructor
        · linarith [h7.1]
        · exact h7.2
      · simp at h8
        rw [h8]
        norm_num
  exact ⟨hpw.chain', hmem⟩

set_option maxRecDepth 8000 in
theorem c6run_trace :
    (generateGeoContext c6build 0 wL c6props wG).map (·.2) =
      some (progressTrace 299 300) := rfl

/-- **C6** (counterexample).  As stated the progress claim is false: on the
concrete Variant A run with 299 qualifying items that all share one group key
(300 emitted writes, hence one flush cycle), the progress trace is
`[10, 20, 29980/299, 100]` — the third value `29980/299 ≈ 100.27` exceeds
100, and the final jump *down* to 100 breaks monotonicity.  The per-flush
increment `80 * 300 / totalItemCount` totals more than 80 whenever node
creations push the write count past `totalItemCount`. -/
theorem C6_counterexample :
    (generateGeoContext c6build 0 wL c6props wG).map (·.2) =
        some [10, 20, 29980 / 299, 100] ∧
      ¬ ((29980 : ℚ) / 299 ≤ 100) ∧
      ¬ List.Chain' (· ≤ ·) [(10 : ℚ), 20, 29980 / 299, 100] := by
  refine ⟨?_, by norm_num, ?_⟩
  · rw [c6run_trace, progressTrace_eq_299]
  · intro hchain
    rw [List.chain'_cons, List.chain'_cons, List.chain'_cons] at hchain
    have := hchain.2.2.1
    norm_num at this

/-- **C6** (amended).  Variant A's progress counter is set to 10, advanced to
20 after building the temporary tree, advanced by `80 * 300 / props.length`
at each flush cycle and finally set to 100; *provided the run emits at most
`props.length` pending writes* (e.g. when the group nodes already exist and
only leaf attachments are emitted), the sequence of values is monotonically
non-decreasing and stays within 0–100.  Without that bound the counter can
exceed 100 and then drop, as the counterexample shows. -/
theorem C6_progress (build : List ExternalItem → TmpTree) (c : Nat) (L : Layout)
    (props : List ExternalItem) (g : Graph) (log : RunLog) (trace : List ℚ)
    (h : generateGeoContext build c L props g = some (log, trace))
    (hW : log.writes.length ≤ props.length) :
    List.Chain' (· ≤ ·) trace ∧ ∀ v ∈ trace, 0 ≤ v ∧ v ≤ 100 := by
  unfold generateGeoContext at h
  cases hrun : generateGeoContextRec c c (build props) L 0 g with
  | none => simp only [hrun] at h; simp at h
  | some r =>
    obtain ⟨g1, ws, tr⟩ := r
    simp only [hrun] at h
    simp at h
    obtain ⟨hlog, htrace⟩ := h
    rw [← hlog] at hW
    simp at hW
    rw [← htrace]
    exact progressTrace_bounds props.length ws.length hW

/-- **C6** (witness).  The amended progress theorem applied to a concrete run
in which the single group node already exists, so exactly `props.length`
writes are emitted and the trace is `[10, 20, 100]`. -/
theorem C6_witness :
    List.Chain' (· ≤ ·) (progressTrace 2 2) ∧
      ∀ v ∈ progressTrace 2 2, 0 ≤ v ∧ v ≤ 100 :=
  C6_progress c6build 0 wL [⟨5, "x"⟩, ⟨6, "y"⟩] wG1
    ⟨true, [(0, "R")], [Write.addBIM 0 1 5 "x", Write.addBIM 0 1 6 "y"], wG1, none⟩
    (progressTrace 2 2) rfl (by decide)

/-- **C3** (counterexample).  As stated the claim is false for Variant B: for
a Group with two entry names, Variant B's lookup phase performs two
`getChildren` round-trips — one inside each `getChild` call — not one. -/
theorem C3_counterexample :
    (variantBLookups wG1 0 ["A", "B"] "R").2 = 2 ∧
      (variantBLookups wG1 0 ["A", "B"] "R").2 ≠ 1 := by
  refine ⟨rfl, by decide⟩

/-- **C3** (amended).  Variant A's `getChildrenByNames` resolves a parent's
children with a single `getChildren` call per Group and matches each name
against that one result, whereas Variant B issues one `getChildren` call per
requested name (`getChild` per name); both lookup phases return exactly the
same per-name results. -/
theorem C3_resolver (g : Graph) (p : Nat) (names : List String) (rel : String) :
    getChildrenByNames g p names rel = names.map (fun nm => getChild g p nm rel) ∧
      (variantBLookups g p names rel).1 = getChildrenByNames g p names rel ∧
      (variantBLookups g p names rel).2 = names.length := by
  refine ⟨?_, ?_, ?_⟩
  · simp [getChildrenByNames, getChild, getChildLoop_eq]
  · induction names with
    | nil => rfl
    | cons nm rest ih =>
      simp only [variantBLookups, getChildrenByNames, List.map_cons] at ih ⊢
      rw [ih]
      simp [getChild, getChildLoop_eq]
  · induction names with
    | nil => rfl
    | cons nm rest ih => simp only [variantBLookups, List.length_cons, ih]

/-- **C7** (confirmed).  Variant B's entry point short-circuits on zero
qualifying items: it returns immediately with no temporary tree built, no
Group level visited (hence no resolver call), no pending write emitted and
the graph untouched, resolving to `undefined`. -/
theorem C7_short_circuit (build : List ExternalItem → TmpTree) (c : Nat) (L : Layout)
    (g : Graph) :
    GenerateGeoContext build c L [] g = some ⟨false, [], [], g, none⟩ := rfl

theorem progressTrace_zero : progressTrace 0 0 = [10, 20, 100] := by
  simp [progressTrace, PROGRESS_BAR_SIZE_GET_PROPS, PROGRESS_BAR_SIZE_CREATE_TREE,
    PROGRESS_BAR_SIZE_CREATE_GRAPH, MAX_NON_SYNCHRONIZED_NODES]
  norm_num

/-- **C8** (confirmed).  Variant A always proceeds, even on an empty item
list: the run still builds the (degenerate, empty) temporary tree, visits the
context's Group level once, emits no write, leaves the graph unchanged, and
completes normally with the progress stages `10, 20, 100`. -/
theorem C8_empty_proceeds (build : List ExternalItem → TmpTree) (c : Nat) (L : Layout)
    (g : Graph) (rel : String)
    (hb : build [] = .group []) (hrel : L.relations.get? 0 = some rel) :
    generateGeoContext build c L [] g =
      some (⟨true, [(c, rel)], [], g, none⟩, [10, 20, 100]) := by
  have hrun : generateGeoContextRec c c (build []) L 0 g = some (g, [], [(c, rel)]) := by
    rw [hb, generateGeoContextRec]
    simp only [hrel, genEntries_nil_eq]
  unfold generateGeoContext
  simp only [hrun, List.length_nil]
  rw [progressTrace_zero]

/-- **C8** (witness).  The empty-input theorem applied to a concrete layout,
graph and grouping collaborator. -/
theorem C8_witness :
    generateGeoContext (fun _ => .group []) 0 wL [] wG =
      some (⟨true, [(0, "R")], [], wG, none⟩, [10, 20, 100]) :=
  C8_empty_proceeds (fun _ => .group []) 0 wL wG "R" rfl rfl

/-- **C10** (confirmed).  Variant B's entry point resolves to `undefined` in
every terminating execution — on the empty-input short-circuit and on full
materialization alike; the materialized context is never returned to the
caller (its own doc comment notwithstanding). -/
theorem C10_returns_undefined (build : List ExternalItem → TmpTree) (c : Nat) (L : Layout)
    (props : List ExternalItem) (g : Graph) (log : RunLog)
    (h : GenerateGeoContext build c L props g = some log) :
    log.retVal = none := by
  unfold GenerateGeoContext at h
  cases props with
  | nil =>
    simp at h
    rw [← h]
  | cons x props =>
    simp only [List.length_cons] at h
    have hcond : ((props.length + 1 : Nat) == 0) = false := by simp
    rw [hcond] at h
    simp only [Bool.false_eq_true, if_false] at h
    cases hrun : generateGeoContextRec c c (build (x :: props)) L 0 g with
    | none => simp only [hrun] at h; simp at h
    | some r =>
      obtain ⟨g1, ws, tr⟩ := r
      simp only [hrun] at h
      simp at h
      rw [← h]

/-- **C10** (witness).  The undefined-return theorem applied to the concrete
empty-input run. -/
theorem C10_witness : (⟨false, [], [], wG, none⟩ : RunLog).retVal = none :=
  C10_returns_undefined (fun _ => .group []) 0 wL [] wG ⟨false, [], [], wG, none⟩ rfl
